import Mathlib

/-!
Shallow embedding of the BLE→ADB bridge firmware (thec0mmrade/ble-adb-bridge).

Device emulator state lives in module-level statics in the C++ sources
(`src/adb_keyboard.cpp`, `src/adb_mouse.cpp`); here each module's statics are
gathered into a structure and each handler becomes a pure state transformer.
The FreeRTOS event queues (`src/event_queue.cpp`) are modelled as lists with
the front as the oldest element; `xQueueSend` with a zero timeout drops the
element when the queue is full.  `int16_t` accumulators are modelled as `Int`
with explicit two's-complement wrap where the C code can overflow, and the
C expression `v & 0x7F` on a signed byte is modelled as `(v % 128).toNat`
(Euclidean remainder, which agrees with two's complement on the low bits).
-/

namespace BleAdb

/-! ### Constants from `src/include/config.h` -/

def ADB_ATTN_MIN_US : Nat := 560
def ADB_ATTN_MAX_US : Nat := 1040
def ADB_BIT_CELL_US : Nat := 100
def ADB_BIT_THRESHOLD_US : Nat := 50
def ADB_TLT_MAX_US : Nat := 260
def ADB_RESET_MIN_US : Nat := 2800
def ADB_ADDR_KEYBOARD : Nat := 2
def ADB_ADDR_MOUSE : Nat := 3
def ADB_HANDLER_KEYBOARD : Nat := 2
def ADB_HANDLER_MOUSE : Nat := 2
def ADB_CMD_RESET : Nat := 0
def ADB_CMD_FLUSH : Nat := 1
def ADB_CMD_LISTEN : Nat := 2
def ADB_CMD_TALK : Nat := 3
def KBD_QUEUE_SIZE : Nat := 32
def MOUSE_QUEUE_SIZE : Nat := 64

/-! ### Event types from `src/include/event_queue.h` -/

/-- `KbdEvent`: one key press or release (7-bit ADB keycode + released flag). -/
structure KbdEvent where
  adb_keycode : Nat
  released : Bool
deriving DecidableEq

/-- `MouseEvent`: movement deltas (`int16_t`) plus button state. -/
structure MouseEvent where
  dx : Int
  dy : Int
  button : Bool
deriving DecidableEq

/-! ### Event queues from `src/src/event_queue.cpp`.
`xQueueSend(q, e, 0)` fails (drops `e`) when the queue is at capacity. -/

namespace event_queue

def send_kbd (q : List KbdEvent) (e : KbdEvent) : List KbdEvent :=
  if q.length < KBD_QUEUE_SIZE then q ++ [e] else q

def send_mouse (q : List MouseEvent) (e : MouseEvent) : List MouseEvent :=
  if q.length < MOUSE_QUEUE_SIZE then q ++ [e] else q

def kbd_pending (q : List KbdEvent) : Bool := !q.isEmpty

def mouse_pending (q : List MouseEvent) : Bool := !q.isEmpty

end event_queue

/-! ### Keyboard emulator from `src/src/adb_keyboard.cpp` -/

namespace adb_keyboard

def KEY_BUF_SIZE : Nat := 32

/-- The module statics of `adb_keyboard.cpp`: address, handler id, the
32-entry key ring (`s_key_buf` with head/tail indices) and register 2. -/
structure State where
  address : Nat
  handler : Nat
  key_buf : List Nat
  key_head : Nat
  key_tail : Nat
  register2 : Nat
deriving DecidableEq

/-- `init()`: resets every static except the ring storage contents. -/
def init (s : State) : State :=
  { s with
    address := ADB_ADDR_KEYBOARD
    handler := ADB_HANDLER_KEYBOARD
    key_head := 0
    key_tail := 0
    register2 := 0xFFFF }

/-- Power-on state: statics with their initializers, ring storage zeroed. -/
def startup : State :=
  { address := ADB_ADDR_KEYBOARD
    handler := ADB_HANDLER_KEYBOARD
    key_buf := List.replicate KEY_BUF_SIZE 0
    key_head := 0
    key_tail := 0
    register2 := 0xFFFF }

def buf_empty (s : State) : Bool := s.key_head == s.key_tail

def buf_full (s : State) : Bool := (s.key_head + 1) % KEY_BUF_SIZE == s.key_tail

def buf_push (key_event : Nat) (s : State) : State :=
  if buf_full s then s
  else
    { s with
      key_buf := s.key_buf.set s.key_head key_event
      key_head := (s.key_head + 1) % KEY_BUF_SIZE }

def buf_pop (s : State) : Nat × State :=
  (s.key_buf.getD s.key_tail 0,
   { s with key_tail := (s.key_tail + 1) % KEY_BUF_SIZE })

/-- The packed byte pushed by `process_queue`:
bit 7 = release flag, bits 6:0 = ADB keycode. -/
def pack_event (evt : KbdEvent) : Nat :=
  (if evt.released then 0x80 else 0x00) ||| (evt.adb_keycode &&& 0x7F)

/-- `process_queue()`: drain the whole event queue into the ring. -/
def process_queue (s : State) (q : List KbdEvent) : State :=
  q.foldl (fun st evt => buf_push (pack_event evt) st) s

/-- `handle_talk(reg, data)`: returns the response word (if any), the new
state and the remaining event queue. -/
def handle_talk (reg : Nat) (s : State) (q : List KbdEvent) :
    Option Nat × State × List KbdEvent :=
  match reg with
  | 0 =>
    let s1 := process_queue s q
    if buf_empty s1 then (none, s1, [])
    else
      let p1 := buf_pop s1
      let p2 := if buf_empty p1.2 then (0xFF, p1.2) else buf_pop p1.2
      (some ((p1.1 <<< 8) ||| p2.1), p2.2, [])
  | 2 => (some s.register2, s, q)
  | 3 => (some (((0x60 ||| (s.address &&& 0x0F)) <<< 8) ||| s.handler), s, q)
  | _ => (none, s, q)

def handle_listen (reg : Nat) (data : Nat) (s : State) : State :=
  match reg with
  | 2 => { s with register2 := data }
  | 3 =>
    let new_addr := data >>> 8
    let new_handler := data &&& 0xFF
    let s1 :=
      if new_addr ≠ 0 ∧ new_addr ≠ 0xFE then
        { s with address := new_addr &&& 0x0F }
      else s
    if new_handler ≠ 0 ∧ new_handler ≠ 0xFE then
      { s1 with handler := new_handler }
    else s1
  | _ => s

def handle_flush (s : State) : State :=
  { s with key_head := 0, key_tail := 0 }

def handle_reset (s : State) : State := init s

def has_data (s : State) (q : List KbdEvent) : Bool :=
  !buf_empty s || event_queue.kbd_pending q

end adb_keyboard

/-! ### Mouse emulator from `src/src/adb_mouse.cpp` -/

namespace adb_mouse

/-- Two's-complement wrap of an `int16_t` value. -/
def wrap16 (v : Int) : Int := (v + 32768) % 65536 - 32768

/-- `clamp7`: clamp a value to the 7-bit signed range (-64 to +63). -/
def clamp7 (val : Int) : Int :=
  if val > 63 then 63 else if val < -64 then -64 else val

/-- The C expression `v & 0x7F` on a signed byte value. -/
def low7 (v : Int) : Nat := (v % 128).toNat

/-- The module statics of `adb_mouse.cpp`. -/
structure State where
  address : Nat
  handler : Nat
  accum_dx : Int
  accum_dy : Int
  button_pressed : Bool
  button_changed : Bool
deriving DecidableEq

def init (_s : State) : State :=
  { address := ADB_ADDR_MOUSE
    handler := ADB_HANDLER_MOUSE
    accum_dx := 0
    accum_dy := 0
    button_pressed := false
    button_changed := false }

def startup : State :=
  { address := ADB_ADDR_MOUSE
    handler := ADB_HANDLER_MOUSE
    accum_dx := 0
    accum_dy := 0
    button_pressed := false
    button_changed := false }

/-- One iteration of the `process_queue()` loop: accumulate the deltas
(with `int16_t` wrap) and latch a button edge. -/
def apply_event (st : State) (evt : MouseEvent) : State :=
  let st1 :=
    { st with
      accum_dx := wrap16 (st.accum_dx + evt.dx)
      accum_dy := wrap16 (st.accum_dy + evt.dy) }
  if evt.button ≠ st1.button_pressed then
    { st1 with button_pressed := evt.button, button_changed := true }
  else st1

/-- `process_queue()`: drain the whole queue through `apply_event`. -/
def process_queue (s : State) (q : List MouseEvent) : State :=
  q.foldl apply_event s

def handle_talk (reg : Nat) (s : State) (q : List MouseEvent) :
    Option Nat × State × List MouseEvent :=
  match reg with
  | 0 =>
    let s1 := process_queue s q
    if s1.accum_dx = 0 ∧ s1.accum_dy = 0 ∧ s1.button_changed = false then
      (none, s1, [])
    else
      let dx := clamp7 s1.accum_dx
      let dy := clamp7 s1.accum_dy
      let s2 :=
        { s1 with
          accum_dx := s1.accum_dx - dx
          accum_dy := s1.accum_dy - dy
          button_changed := false }
      let button_bit : Nat := if s2.button_pressed then 0x00 else 0x80
      let byte0 := button_bit ||| low7 dy
      let byte1 := 0x80 ||| low7 dx
      (some ((byte0 <<< 8) ||| byte1), s2, [])
  | 3 => (some (((0x60 ||| (s.address &&& 0x0F)) <<< 8) ||| s.handler), s, q)
  | _ => (none, s, q)

def handle_listen (reg : Nat) (data : Nat) (s : State) : State :=
  if reg = 3 then
    let new_addr := data >>> 8
    let new_handler := data &&& 0xFF
    let s1 :=
      if new_addr ≠ 0 ∧ new_addr ≠ 0xFE then
        { s with address := new_addr &&& 0x0F }
      else s
    if new_handler ≠ 0 ∧ new_handler ≠ 0xFE then
      { s1 with handler := new_handler }
    else s1
  else s

def handle_flush (s : State) : State :=
  { s with accum_dx := 0, accum_dy := 0, button_changed := false }

def handle_reset (s : State) : State := init s

def has_data (s : State) (q : List MouseEvent) : Bool :=
  (s.accum_dx != 0) || (s.accum_dy != 0) || s.button_changed
    || event_queue.mouse_pending q

end adb_mouse

/-! ### Protocol engine from `src/src/adb_protocol.cpp` -/

namespace adb_protocol

/-- Parsed command byte: `[4-bit addr][2-bit cmd][2-bit register]`
(`receive_command`, with `valid` left implicit: an invalid byte never
reaches `handle_command`). -/
structure AdbCommand where
  address : Nat
  command : Nat
  reg : Nat
deriving DecidableEq

/-- The whole mutable state `handle_command` can touch: both emulators'
statics plus the two event queues. -/
structure Sys where
  kbd : adb_keyboard.State
  mouse : adb_mouse.State
  kq : List KbdEvent
  mq : List MouseEvent
deriving DecidableEq

def sysStartup : Sys :=
  { kbd := adb_keyboard.startup
    mouse := adb_mouse.startup
    kq := []
    mq := [] }

/-- The spec's S6 scenario: one keyboard event queued, mouse idle. -/
def sysS6 : Sys :=
  { kbd := adb_keyboard.startup
    mouse := adb_mouse.startup
    kq := [⟨0, false⟩]
    mq := [] }

/-- One result of `receive_bit()`: `none` models the `-1` timeout return,
`some b` a decoded bit. -/
abbrev BitResult := Option Bool

/-- The 16-data-bit loop of `receive_data` (`result = result*2 + bit`,
MSB first); fails if any `receive_bit` call returned `-1`. -/
def recv_bits : Nat → Nat → List BitResult → Option (Nat × List BitResult)
  | 0, acc, rest => some (acc, rest)
  | _ + 1, _, [] => none
  | _ + 1, _, none :: _ => none
  | n + 1, acc, some b :: rest =>
    recv_bits n (acc * 2 + (if b then 1 else 0)) rest

/-- `receive_data()`: start bit must decode as `1`; then 16 data bits;
the stop bit is consumed but not validated. Returns `none` for the `-1`
error return. -/
def receive_data (bits : List BitResult) : Option Nat :=
  match bits with
  | some true :: rest => (recv_bits 16 0 rest).map Prod.fst
  | _ => none

/-- The Listen data phase: `wait_for_state(false, ADB_TLT_MAX_US + 100)`
returning 0 (host never drove the start bit) is modelled by `none`;
otherwise the received bit stream is decoded by `receive_data`. -/
def listen_payload (frame : Option (List BitResult)) : Option Nat :=
  match frame with
  | none => none
  | some bits => receive_data bits

/-- The Talk arm of the dispatch switch. -/
def talk_step (is_kbd : Bool) (reg : Nat) (sys : Sys) : Sys :=
  if is_kbd then
    let r := adb_keyboard.handle_talk reg sys.kbd sys.kq
    { sys with kbd := r.2.1, kq := r.2.2 }
  else
    let r := adb_mouse.handle_talk reg sys.mouse sys.mq
    { sys with mouse := r.2.1, mq := r.2.2 }

/-- The Listen arm: deliver the payload, or drop the frame on error. -/
def listen_step (is_kbd : Bool) (reg : Nat) (listen_data : Option Nat)
    (sys : Sys) : Sys :=
  match listen_data with
  | none => sys
  | some d =>
    if is_kbd then { sys with kbd := adb_keyboard.handle_listen reg d sys.kbd }
    else { sys with mouse := adb_mouse.handle_listen reg d sys.mouse }

/-- The Flush arm (both tests fire independently, as in the source). -/
def flush_step (is_kbd is_mouse : Bool) (sys : Sys) : Sys :=
  let sys1 := if is_kbd then { sys with kbd := adb_keyboard.handle_flush sys.kbd } else sys
  if is_mouse then { sys1 with mouse := adb_mouse.handle_flush sys1.mouse } else sys1

/-- The Reset arm. -/
def reset_step (is_kbd is_mouse : Bool) (sys : Sys) : Sys :=
  let sys1 := if is_kbd then { sys with kbd := adb_keyboard.handle_reset sys.kbd } else sys
  if is_mouse then { sys1 with mouse := adb_mouse.handle_reset sys1.mouse } else sys1

/-- `handle_command`: returns the SRQ decision made while consuming the
stop bit, and the state after the dispatch.  `listen_data` is the decoded
Listen payload (`none` when the receive failed). -/
def handle_command (cmd : AdbCommand) (listen_data : Option Nat) (sys : Sys) :
    Bool × Sys :=
  let is_kbd := cmd.address == sys.kbd.address
  let is_mouse := cmd.address == sys.mouse.address
  if !is_kbd && !is_mouse then
    (adb_keyboard.has_data sys.kbd sys.kq || adb_mouse.has_data sys.mouse sys.mq,
     sys)
  else
    ((if is_kbd then adb_mouse.has_data sys.mouse sys.mq
      else adb_keyboard.has_data sys.kbd sys.kq),
     if cmd.command == ADB_CMD_TALK then talk_step is_kbd cmd.reg sys
     else if cmd.command == ADB_CMD_LISTEN then listen_step is_kbd cmd.reg listen_data sys
     else if cmd.command == ADB_CMD_FLUSH then flush_step is_kbd is_mouse sys
     else reset_step is_kbd is_mouse sys)

/-- What `bus_loop` decides after measuring one low pulse. -/
inductive BusAction where
  | reset
  | processFrame
  | ignore
deriving DecidableEq

/-- The pulse classification of `bus_loop` (lines 294-324): reset check
first, then the attention window, otherwise noise. -/
def bus_low_pulse (low_duration : Nat) (sys : Sys) : BusAction × Sys :=
  if low_duration ≥ ADB_RESET_MIN_US then
    (BusAction.reset,
     { sys with
       kbd := adb_keyboard.handle_reset sys.kbd
       mouse := adb_mouse.handle_reset sys.mouse })
  else if ADB_ATTN_MIN_US ≤ low_duration ∧ low_duration ≤ ADB_ATTN_MAX_US then
    (BusAction.processFrame, sys)
  else
    (BusAction.ignore, sys)

/-- One observable input to the bus loop: events the BLE side enqueued
since the previous command, the decoded command, and (for Listen) the
result of the data phase. -/
structure BusInput where
  arrivedK : List KbdEvent
  arrivedM : List MouseEvent
  cmd : AdbCommand
  listen_data : Option Nat
deriving DecidableEq

def sys_step (sys : Sys) (inp : BusInput) : Sys :=
  let sys1 :=
    { sys with
      kq := inp.arrivedK.foldl event_queue.send_kbd sys.kq
      mq := inp.arrivedM.foldl event_queue.send_mouse sys.mq }
  (handle_command inp.cmd inp.listen_data sys1).2

def sys_run (sys : Sys) (inps : List BusInput) : Sys :=
  inps.foldl sys_step sys

end adb_protocol

/-! ### Bit-timing HAL from `src/src/adb_platform.cpp`.
The line is modelled as a function from elapsed microseconds to its level,
with one poll of the `wait_for_state` loop per microsecond. -/

namespace adb_platform

/-- The polling loop of `wait_for_state`: at elapsed time `t`, exit with
`t` if the pin is in the target state; otherwise return 0 once
`timeout_us` has elapsed.  `fuel` starts at `timeout_us`, so it never
runs out before the timeout check fires. -/
def wfs_loop (pin : Nat → Bool) (state : Bool) (timeout_us : Nat) :
    Nat → Nat → Nat
  | t, 0 => if pin t = state then t else 0
  | t, fuel + 1 =>
    if pin t = state then t
    else if timeout_us ≤ t then 0
    else wfs_loop pin state timeout_us (t + 1) fuel

/-- `wait_for_state(state, timeout_us)`: elapsed µs, or 0 on timeout. -/
def wait_for_state (pin : Nat → Bool) (state : Bool) (timeout_us : Nat) : Nat :=
  wfs_loop pin state timeout_us 0 timeout_us

end adb_platform

/-! ### Modifier table from `src/include/keycode_map.h` -/

namespace keycode_map

def ADB_KEY_NONE : Nat := 0xFF

/-- `MODIFIER_MAP`: USB modifier mask paired with the ADB keycode. -/
def MODIFIER_MAP : List (Nat × Nat) :=
  [(0x01, 0x36), (0x02, 0x38), (0x04, 0x3A), (0x08, 0x37),
   (0x10, 0x7D), (0x20, 0x7B), (0x40, 0x7C), (0x80, 0x37)]

def MODIFIER_MAP_SIZE : Nat := 8

end keycode_map

/-! ### Keyboard report ingest from `src/src/ble_hid_host.cpp`
(`on_keyboard_report`, lines 500-594).  The 256-entry `usb_to_adb` table
lives in a translation unit not under `src/`, so the parser is
parameterized by the table; `0xFF` means unmapped. -/

namespace ble_hid_host

/-- The per-slot parser state consumed by `on_keyboard_report`. -/
structure KbdHostState where
  prev_modifiers : Nat
  prev_keys : List Nat
deriving DecidableEq

/-- The `still_pressed` scan: `for (j = 2; j < 8 && j < length; j++)`. -/
def still_pressed (report : List Nat) (prev_key : Nat) : Bool :=
  ((List.range 8).drop 2).any
    (fun j => decide (j < report.length) && (report.getD j 0 == prev_key))

/-- The `was_pressed` scan over the six stored previous keys. -/
def was_pressed (prev_keys : List Nat) (cur_key : Nat) : Bool :=
  (List.range 6).any (fun i => prev_keys.getD i 0 == cur_key)

/-- `on_keyboard_report`: returns the events pushed to the keyboard queue
(in push order) and the updated parser state. -/
def on_keyboard_report (usb_to_adb : Nat → Nat) (st : KbdHostState)
    (report : List Nat) : List KbdEvent × KbdHostState :=
  if report.length < 8 then ([], st)
  else
    let modifiers := report.getD 0 0
    let mod_diff := modifiers ^^^ st.prev_modifiers
    let modEvents :=
      if mod_diff ≠ 0 then
        (List.range keycode_map.MODIFIER_MAP_SIZE).filterMap
          (fun i =>
            if mod_diff &&& (keycode_map.MODIFIER_MAP.getD i (0, 0)).1 ≠ 0 then
              some ⟨(keycode_map.MODIFIER_MAP.getD i (0, 0)).2,
                    (modifiers &&& (keycode_map.MODIFIER_MAP.getD i (0, 0)).1) == 0⟩
            else none)
      else []
    let prev_modifiers' := if mod_diff ≠ 0 then modifiers else st.prev_modifiers
    let releaseEvents :=
      (List.range 6).filterMap
        (fun i =>
          if st.prev_keys.getD i 0 == 0 then none
          else if still_pressed report (st.prev_keys.getD i 0) then none
          else if usb_to_adb (st.prev_keys.getD i 0) ≠ keycode_map.ADB_KEY_NONE then
            some ⟨usb_to_adb (st.prev_keys.getD i 0), true⟩
          else none)
    let pressEvents :=
      ((List.range 8).drop 2).filterMap
        (fun j =>
          if decide (j < report.length) then
            if report.getD j 0 == 0 then none
            else if was_pressed st.prev_keys (report.getD j 0) then none
            else if usb_to_adb (report.getD j 0) ≠ keycode_map.ADB_KEY_NONE then
              some ⟨usb_to_adb (report.getD j 0), false⟩
            else none
          else none)
    let prev_keys' :=
      (List.range 6).map
        (fun i => if i + 2 < report.length then report.getD (i + 2) 0 else 0)
    (modEvents ++ releaseEvents ++ pressEvents,
     { prev_modifiers := prev_modifiers', prev_keys := prev_keys' })

end ble_hid_host

/-! ### Derived abstractions used to state the properties -/

namespace adb_keyboard

/-- Number of events stored in the ring (head/tail distance mod size). -/
def ring_count (s : State) : Nat :=
  (s.key_head + KEY_BUF_SIZE - s.key_tail) % KEY_BUF_SIZE

/-- The stored events, oldest first, as a list. -/
def ring_list (s : State) : List Nat :=
  (List.range (ring_count s)).map
    (fun i => s.key_buf.getD ((s.key_tail + i) % KEY_BUF_SIZE) 0)

/-- Well-formedness of the ring indices (maintained by every operation). -/
def ring_wf (s : State) : Prop :=
  s.key_head < KEY_BUF_SIZE ∧ s.key_tail < KEY_BUF_SIZE ∧
    s.key_buf.length = KEY_BUF_SIZE

instance (s : State) : Decidable (ring_wf s) :=
  decidable_of_iff
    (s.key_head < KEY_BUF_SIZE ∧ s.key_tail < KEY_BUF_SIZE ∧
      s.key_buf.length = KEY_BUF_SIZE) Iff.rfl

/-- One producer/consumer operation on the key ring.  The consumer
(`handle_talk` R0) always checks `buf_empty` before popping. -/
inductive RingOp where
  | push (v : Nat)
  | pop
deriving DecidableEq

def ring_run (s : State) (ops : List RingOp) : State :=
  ops.foldl
    (fun st op =>
      match op with
      | RingOp.push v => buf_push v st
      | RingOp.pop => if buf_empty st then st else (buf_pop st).2)
    s

/-- A ring that has absorbed 31 pushes from the power-on state. -/
def ring31 : State :=
  (List.range 31).foldl (fun s i => buf_push i s) startup

end adb_keyboard

namespace ble_hid_host

/-- Bytes 2..7 of a report: the up-to-six pressed usage codes. -/
def cur_keys (report : List Nat) : List Nat := (report.drop 2).take 6

/-- The fixed modifier table indexed by USB modifier bit position. -/
def modifier_table (b : Nat) : Nat :=
  [0x36, 0x38, 0x3A, 0x37, 0x7D, 0x7B, 0x7C, 0x37].getD b 0

/-- Specification-side restatement of `on_keyboard_report`, following the
spec's wording: one event per bit set in `modifiers XOR prev_modifiers`
with `released = !(modifiers & bit)`; one release per non-zero code in
`prev_keys` absent from bytes 2..7 of the report; one press per non-zero
code in bytes 2..7 absent from `prev_keys`; unmapped codes (0xFF) yield
no event; reports shorter than 8 bytes produce no events. -/
def keyboard_report_spec (usb_to_adb : Nat → Nat) (st : KbdHostState)
    (report : List Nat) : List KbdEvent × KbdHostState :=
  if report.length < 8 then ([], st)
  else
    let modifiers := report.getD 0 0
    let modEvents :=
      (List.range 8).filterMap
        (fun b =>
          if (modifiers ^^^ st.prev_modifiers).testBit b then
            some ⟨modifier_table b, !modifiers.testBit b⟩
          else none)
    let releaseEvents :=
      st.prev_keys.filterMap
        (fun p =>
          if p ≠ 0 ∧ p ∉ cur_keys report ∧ usb_to_adb p ≠ keycode_map.ADB_KEY_NONE then
            some ⟨usb_to_adb p, true⟩
          else none)
    let pressEvents :=
      (cur_keys report).filterMap
        (fun c =>
          if c ≠ 0 ∧ c ∉ st.prev_keys ∧ usb_to_adb c ≠ keycode_map.ADB_KEY_NONE then
            some ⟨usb_to_adb c, false⟩
          else none)
    (modEvents ++ releaseEvents ++ pressEvents,
     { prev_modifiers := modifiers, prev_keys := cur_keys report })

end ble_hid_host

/-! ## Theorems -/

/-! ### C9: mouse Flush -/

/-- C9: Flush on the mouse zeroes `accum_dx`, `accum_dy` and
`button_changed`, and preserves `button_pressed`, the address and the
handler id. -/
theorem claim_C9_mouse_flush (s : adb_mouse.State) :
    (adb_mouse.handle_flush s).accum_dx = 0 ∧
    (adb_mouse.handle_flush s).accum_dy = 0 ∧
    (adb_mouse.handle_flush s).button_changed = false ∧
    (adb_mouse.handle_flush s).button_pressed = s.button_pressed ∧
    (adb_mouse.handle_flush s).address = s.address ∧
    (adb_mouse.handle_flush s).handler = s.handler :=
  ⟨rfl, rfl, rfl, rfl, rfl, rfl⟩

/-! ### C2: mouse Talk R0 -/

/-- C2: after draining the queue, a non-quiescent mouse Talk R0 reports
`dy7 = clamp7 accum_dy` and `dx7 = clamp7 accum_dx` packed as
`byte0 = (button_pressed ? 0 : 0x80) | (dy7 & 0x7F)` (high byte) and
`byte1 = 0x80 | (dx7 & 0x7F)` (low byte), and leaves each accumulator
equal to its old value minus the reported amount; `clamp7` is exactly
clamping to [-64, 63]. -/
theorem claim_C2_mouse_talk_r0 (s : adb_mouse.State) (q : List MouseEvent)
    (h : ¬((adb_mouse.process_queue s q).accum_dx = 0 ∧
           (adb_mouse.process_queue s q).accum_dy = 0 ∧
           (adb_mouse.process_queue s q).button_changed = false)) :
    adb_mouse.handle_talk 0 s q =
      (some
        ((((if (adb_mouse.process_queue s q).button_pressed then 0x00 else 0x80) |||
             adb_mouse.low7 (adb_mouse.clamp7 (adb_mouse.process_queue s q).accum_dy)) <<< 8) |||
          (0x80 ||| adb_mouse.low7 (adb_mouse.clamp7 (adb_mouse.process_queue s q).accum_dx))),
       { adb_mouse.process_queue s q with
         accum_dx :=
           (adb_mouse.process_queue s q).accum_dx -
             adb_mouse.clamp7 (adb_mouse.process_queue s q).accum_dx
         accum_dy :=
           (adb_mouse.process_queue s q).accum_dy -
             adb_mouse.clamp7 (adb_mouse.process_queue s q).accum_dy
         button_changed := false },
       []) ∧
    (∀ v : Int, adb_mouse.clamp7 v = max (-64) (min 63 v)) := by
  constructor
  · simp only [adb_mouse.handle_talk]
    rw [if_neg h]
  · intro v
    unfold adb_mouse.clamp7
    split <;> omega

set_option maxRecDepth 4096

/-- Witness for C2: the spec's saturation scenario, a single queued event
`{dx: 200, dy: -200, button: false}`, answers `0xC0BF` and leaves the
accumulators at `137` and `-136`. -/
theorem claim_C2_witness :
    ¬((adb_mouse.process_queue adb_mouse.startup [⟨200, -200, false⟩]).accum_dx = 0 ∧
      (adb_mouse.process_queue adb_mouse.startup [⟨200, -200, false⟩]).accum_dy = 0 ∧
      (adb_mouse.process_queue adb_mouse.startup [⟨200, -200, false⟩]).button_changed = false) ∧
    adb_mouse.handle_talk 0 adb_mouse.startup [⟨200, -200, false⟩] =
      (some 0xC0BF, ⟨3, 2, 137, -136, false, false⟩, []) :=
  ⟨by decide, by
    have h := claim_C2_mouse_talk_r0 adb_mouse.startup [⟨200, -200, false⟩] (by decide)
    rw [h.1]
    decide⟩

/-! ### C4: attention-pulse classification -/

/-- C4: a measured low pulse in `[560, 1040]` makes the loop process a
command frame with both device states untouched; a pulse `≥ 2800`
resets both emulators to their defaults (keyboard address 2 with empty
ring, mouse state entirely at startup defaults, so address 3 and zero
accumulators); every other duration changes neither state block. -/
theorem claim_C4_attention_classification (sys : adb_protocol.Sys) (d : Nat) :
    (ADB_ATTN_MIN_US ≤ d ∧ d ≤ ADB_ATTN_MAX_US →
      adb_protocol.bus_low_pulse d sys = (adb_protocol.BusAction.processFrame, sys)) ∧
    (ADB_RESET_MIN_US ≤ d →
      (adb_protocol.bus_low_pulse d sys).1 = adb_protocol.BusAction.reset ∧
      (adb_protocol.bus_low_pulse d sys).2.kbd.address = ADB_ADDR_KEYBOARD ∧
      (adb_protocol.bus_low_pulse d sys).2.kbd.handler = ADB_HANDLER_KEYBOARD ∧
      (adb_protocol.bus_low_pulse d sys).2.kbd.key_head = 0 ∧
      (adb_protocol.bus_low_pulse d sys).2.kbd.key_tail = 0 ∧
      (adb_protocol.bus_low_pulse d sys).2.kbd.register2 = 0xFFFF ∧
      (adb_protocol.bus_low_pulse d sys).2.mouse = adb_mouse.startup) ∧
    (¬(ADB_ATTN_MIN_US ≤ d ∧ d ≤ ADB_ATTN_MAX_US) → ¬ADB_RESET_MIN_US ≤ d →
      adb_protocol.bus_low_pulse d sys = (adb_protocol.BusAction.ignore, sys)) := by
  simp only [adb_protocol.bus_low_pulse, ADB_ATTN_MIN_US, ADB_ATTN_MAX_US, ADB_RESET_MIN_US]
  refine ⟨?_, ?_, ?_⟩
  · rintro ⟨h1, h2⟩
    rw [if_neg (by omega), if_pos ⟨h1, h2⟩]
  · intro h
    rw [if_pos h]
    exact ⟨rfl, rfl, rfl, rfl, rfl, rfl, rfl⟩
  · intro h1 h2
    rw [if_neg h2, if_neg h1]

/-- Witness for C4: 800 µs is processed as a frame, 3000 µs resets the
devices, 2000 µs leaves everything untouched. -/
theorem claim_C4_witness :
    adb_protocol.bus_low_pulse 800 adb_protocol.sysStartup =
      (adb_protocol.BusAction.processFrame, adb_protocol.sysStartup) ∧
    (adb_protocol.bus_low_pulse 3000 adb_protocol.sysStartup).1 =
      adb_protocol.BusAction.reset ∧
    adb_protocol.bus_low_pulse 2000 adb_protocol.sysStartup =
      (adb_protocol.BusAction.ignore, adb_protocol.sysStartup) :=
  ⟨(claim_C4_attention_classification adb_protocol.sysStartup 800).1 (by decide),
   ((claim_C4_attention_classification adb_protocol.sysStartup 3000).2.1 (by decide)).1,
   (claim_C4_attention_classification adb_protocol.sysStartup 2000).2.2 (by decide) (by decide)⟩

/-! ### C5: SRQ decision -/

/-- C5: the SRQ asserted while consuming the command's stop bit is: for a
command addressed to neither device, `kbd.has_data || mouse.has_data`;
for a command addressed to exactly one device, the other device's
`has_data` (the polled device never causes SRQ on its own poll). -/
theorem claim_C5_srq_arbitration (sys : adb_protocol.Sys)
    (cmd : adb_protocol.AdbCommand) (ld : Option Nat) :
    (cmd.address ≠ sys.kbd.address → cmd.address ≠ sys.mouse.address →
      (adb_protocol.handle_command cmd ld sys).1 =
        (adb_keyboard.has_data sys.kbd sys.kq || adb_mouse.has_data sys.mouse sys.mq)) ∧
    (cmd.address = sys.kbd.address → cmd.address ≠ sys.mouse.address →
      (adb_protocol.handle_command cmd ld sys).1 = adb_mouse.has_data sys.mouse sys.mq) ∧
    (cmd.address = sys.mouse.address → cmd.address ≠ sys.kbd.address →
      (adb_protocol.handle_command cmd ld sys).1 = adb_keyboard.has_data sys.kbd sys.kq) := by
  refine ⟨?_, ?_, ?_⟩ <;> intro h1 h2
  · simp [adb_protocol.handle_command, h1, h2]
  · simp [adb_protocol.handle_command, h1, h2]
  · simp [adb_protocol.handle_command, h1, h2]
    intro hc
    exact absurd (h1.trans hc) h2

/-- Witness for C5: with one keyboard event queued and the mouse idle, a
Talk addressed to the mouse (address 3) asserts SRQ, driven by the
keyboard's pending data (the spec's S6 scenario). -/
theorem claim_C5_witness :
    (3 : Nat) = adb_protocol.sysS6.mouse.address ∧
    (3 : Nat) ≠ adb_protocol.sysS6.kbd.address ∧
    (adb_protocol.handle_command ⟨3, ADB_CMD_TALK, 0⟩ none adb_protocol.sysS6).1 =
      adb_keyboard.has_data adb_protocol.sysS6.kbd adb_protocol.sysS6.kq :=
  ⟨rfl, by decide,
   (claim_C5_srq_arbitration adb_protocol.sysS6 ⟨3, ADB_CMD_TALK, 0⟩ none).2.2
     rfl (by decide)⟩

/-! ### C10: wait_for_state -/

/-- C10 counterexample: a call made while the line is already in the
target state returns 0 — the very value that signals a timeout (shown
alongside an actual timeout returning the same 0), so the timeout
outcome is not distinguishable from every success outcome. -/
theorem claim_C10_counterexample :
    adb_platform.wait_for_state (fun _ => true) true 200 = 0 ∧
    adb_platform.wait_for_state (fun _ => false) true 200 = 0 := by
  constructor
  · rfl
  · decide

/-- C10 (amended): when the line first reaches the target after elapsed
time `t ≤ timeout_us`, the call returns `t`; when the line never reaches
the target within the timeout, it returns 0.  A success is therefore
distinguishable from a timeout only when its elapsed time is positive:
an immediate success (line already in the target state) also returns 0. -/
theorem claim_C10_wait_for_state :
    (∀ (pin : Nat → Bool) (state : Bool) (timeout_us t : Nat),
      pin t = state → (∀ s, s < t → pin s ≠ state) → t ≤ timeout_us →
      adb_platform.wait_for_state pin state timeout_us = t) ∧
    (∀ (pin : Nat → Bool) (state : Bool) (timeout_us : Nat),
      (∀ s, s ≤ timeout_us → pin s ≠ state) →
      adb_platform.wait_for_state pin state timeout_us = 0) := by
  have hit : ∀ (pin : Nat → Bool) (state : Bool) (timeout_us : Nat)
      (fuel t0 t : Nat), t0 ≤ t → t ≤ timeout_us → pin t = state →
      (∀ s, t0 ≤ s → s < t → pin s ≠ state) → t - t0 ≤ fuel →
      adb_platform.wfs_loop pin state timeout_us t0 fuel = t := by
    intro pin state timeout_us fuel
    induction fuel with
    | zero =>
      intro t0 t h1 h2 h3 h4 h5
      have ht : t0 = t := by omega
      subst ht
      simp [adb_platform.wfs_loop, h3]
    | succ f ih =>
      intro t0 t h1 h2 h3 h4 h5
      by_cases he : t0 = t
      · subst he
        simp [adb_platform.wfs_loop, h3]
      · have hne : pin t0 ≠ state := h4 t0 le_rfl (by omega)
        simp only [adb_platform.wfs_loop, if_neg hne, if_neg (by omega : ¬timeout_us ≤ t0)]
        exact ih (t0 + 1) t (by omega) h2 h3 (fun s hs1 hs2 => h4 s (by omega) hs2) (by omega)
  have to0 : ∀ (pin : Nat → Bool) (state : Bool) (timeout_us : Nat)
      (fuel t0 : Nat), t0 ≤ timeout_us → (∀ s, s ≤ timeout_us → pin s ≠ state) →
      adb_platform.wfs_loop pin state timeout_us t0 fuel = 0 := by
    intro pin state timeout_us fuel
    induction fuel with
    | zero =>
      intro t0 h1 h2
      simp [adb_platform.wfs_loop, h2 t0 h1]
    | succ f ih =>
      intro t0 h1 h2
      by_cases hto : timeout_us ≤ t0
      · simp [adb_platform.wfs_loop, h2 t0 h1, hto]
      · simp only [adb_platform.wfs_loop, if_neg (h2 t0 h1), if_neg hto]
        exact ih (t0 + 1) (by omega) h2
  constructor
  · intro pin state timeout_us t h1 h2 h3
    exact hit pin state timeout_us timeout_us 0 t (Nat.zero_le t) h3 h1
      (fun s _ hs2 => h2 s hs2) (by omega)
  · intro pin state timeout_us h
    exact to0 pin state timeout_us timeout_us 0 (Nat.zero_le _) h

/-- Witness for C10 (amended): a line that rises at 37 µs yields elapsed
37 within a 200 µs budget, and a line that never rises yields 0. -/
theorem claim_C10_witness :
    adb_platform.wait_for_state (fun t => decide (37 ≤ t)) true 200 = 37 ∧
    adb_platform.wait_for_state (fun _ => false) true 100 = 0 :=
  ⟨claim_C10_wait_for_state.1 (fun t => decide (37 ≤ t)) true 200 37 (by decide)
      (fun s hs => by simp; omega) (by decide),
   claim_C10_wait_for_state.2 (fun _ => false) true 100 (fun s _ => by simp)⟩

/-! ### C6: malformed Listen data frames -/

/-- A `receive_bit` timeout among the 16 data bits makes `recv_bits` fail. -/
theorem recv_bits_none_of_timeout (n : Nat) :
    ∀ (acc : Nat) (rest : List adb_protocol.BitResult),
      (∃ j, j < n ∧ rest.getD j none = none) →
      adb_protocol.recv_bits n acc rest = none := by
  induction n with
  | zero =>
    rintro acc rest ⟨j, hj, -⟩
    exact absurd hj (Nat.not_lt_zero j)
  | succ m ih =>
    rintro acc rest ⟨j, hj, hnone⟩
    cases rest with
    | nil => rfl
    | cons b rs =>
      cases b with
      | none => rfl
      | some bb =>
        cases j with
        | zero => simp [List.getD] at hnone
        | succ j' =>
          simp only [adb_protocol.recv_bits]
          exact ih _ rs ⟨j', by omega, by simpa [List.getD] using hnone⟩

/-- `receive_data` fails whenever the start bit is not a decoded `1` or
any of the 16 data-bit reads timed out. -/
theorem receive_data_none_of_bad (bits : List adb_protocol.BitResult)
    (h : bits.getD 0 none ≠ some true ∨
         ∃ i, 1 ≤ i ∧ i ≤ 16 ∧ bits.getD i none = none) :
    adb_protocol.receive_data bits = none := by
  cases bits with
  | nil => rfl
  | cons b rest =>
    cases b with
    | none => rfl
    | some bb =>
      cases bb with
      | false => rfl
      | true =>
        rcases h with h | ⟨i, h1, h2, h3⟩
        · exact absurd rfl h
        · cases i with
          | zero => omega
          | succ i' =>
            have hr : rest.getD i' none = none := by simpa [List.getD] using h3
            simp [adb_protocol.receive_data,
              recv_bits_none_of_timeout 16 0 rest ⟨i', by omega, hr⟩]

/-- C6: a Listen whose data phase times out (`frame = none`), whose start
bit decodes as other than 1, or whose bit reception times out, leaves the
whole system state — both emulators' statics and both queues — exactly as
it was before the dispatch. -/
theorem claim_C6_malformed_listen (sys : adb_protocol.Sys)
    (cmd : adb_protocol.AdbCommand)
    (frame : Option (List adb_protocol.BitResult))
    (hcmd : cmd.command = ADB_CMD_LISTEN)
    (hbad : frame = none ∨ ∃ bits, frame = some bits ∧
        (bits.getD 0 none ≠ some true ∨
         ∃ i, 1 ≤ i ∧ i ≤ 16 ∧ bits.getD i none = none)) :
    (adb_protocol.handle_command cmd (adb_protocol.listen_payload frame) sys).2 = sys := by
  have hnone : adb_protocol.listen_payload frame = none := by
    rcases hbad with rfl | ⟨bits, rfl, hb⟩
    · rfl
    · simpa [adb_protocol.listen_payload] using receive_data_none_of_bad bits hb
  rw [hnone]
  unfold adb_protocol.handle_command
  dsimp only
  split
  · rfl
  · simp [hcmd, adb_protocol.listen_step, ADB_CMD_LISTEN, ADB_CMD_TALK]

/-- Witness for C6: a Listen R3 addressed to the default keyboard whose
start bit decodes as 0 leaves the startup system unchanged. -/
theorem claim_C6_witness :
    (adb_protocol.AdbCommand.mk 2 ADB_CMD_LISTEN 3).command = ADB_CMD_LISTEN ∧
    (adb_protocol.handle_command ⟨2, ADB_CMD_LISTEN, 3⟩
        (adb_protocol.listen_payload (some [some false])) adb_protocol.sysStartup).2 =
      adb_protocol.sysStartup :=
  ⟨rfl,
   claim_C6_malformed_listen adb_protocol.sysStartup ⟨2, ADB_CMD_LISTEN, 3⟩
     (some [some false]) rfl
     (Or.inr ⟨[some false], rfl, Or.inl (by decide)⟩)⟩

/-! ### Ring-buffer lemmas (keyboard key ring) -/

theorem ring_arith_empty :
    ∀ h, h < 32 → ∀ t, t < 32 → ((h + 32 - t) % 32 = 0 ↔ h = t) := by decide

theorem ring_arith_full :
    ∀ h, h < 32 → ∀ t, t < 32 → ((h + 1) % 32 = t ↔ (h + 32 - t) % 32 = 31) := by decide

theorem ring_arith_push :
    ∀ h, h < 32 → ∀ t, t < 32 → (h + 32 - t) % 32 < 31 →
      ((h + 1) % 32 + 32 - t) % 32 = (h + 32 - t) % 32 + 1 := by decide

theorem ring_arith_pop :
    ∀ h, h < 32 → ∀ t, t < 32 → (h + 32 - t) % 32 ≠ 0 →
      (h + 32 - (t + 1) % 32) % 32 = (h + 32 - t) % 32 - 1 := by decide

theorem ring_arith_head :
    ∀ h, h < 32 → ∀ t, t < 32 → (t + (h + 32 - t) % 32) % 32 = h := by decide

theorem ring_index_ne (t i c : Nat) (hi : i < 32) (hc : c < 32) (hlt : i < c) :
    (t + i) % 32 ≠ (t + c) % 32 := by
  intro he
  have h1 : i ≡ c [MOD 32] := Nat.ModEq.add_left_cancel' t he
  have h2 : i % 32 = c % 32 := h1
  rw [Nat.mod_eq_of_lt hi, Nat.mod_eq_of_lt hc] at h2
  omega

theorem getD_set_ne (l : List Nat) (i j v : Nat) (hij : i ≠ j) :
    (l.set i v).getD j 0 = l.getD j 0 := by
  simp [List.getD_eq_getElem?_getD, List.getElem?_set_ne hij]

theorem getD_set_self (l : List Nat) (i v : Nat) (hi : i < l.length) :
    (l.set i v).getD i 0 = v := by
  simp [List.getD_eq_getElem?_getD, List.getElem?_set, hi]

theorem ring_list_length (s : adb_keyboard.State) :
    (adb_keyboard.ring_list s).length = adb_keyboard.ring_count s := by
  simp [adb_keyboard.ring_list]

theorem ring_count_le (s : adb_keyboard.State) : adb_keyboard.ring_count s ≤ 31 := by
  have := Nat.mod_lt (s.key_head + adb_keyboard.KEY_BUF_SIZE - s.key_tail)
    (show 0 < adb_keyboard.KEY_BUF_SIZE by decide)
  simp only [adb_keyboard.ring_count]
  simp only [adb_keyboard.KEY_BUF_SIZE] at this ⊢
  omega

theorem ring_wf_push (s : adb_keyboard.State) (v : Nat)
    (h : adb_keyboard.ring_wf s) : adb_keyboard.ring_wf (adb_keyboard.buf_push v s) := by
  obtain ⟨hh, ht, hlen⟩ := h
  unfold adb_keyboard.buf_push
  split
  · exact ⟨hh, ht, hlen⟩
  · refine ⟨?_, ht, ?_⟩
    · exact Nat.mod_lt _ (by decide)
    · simpa [List.length_set] using hlen

theorem ring_wf_pop (s : adb_keyboard.State)
    (h : adb_keyboard.ring_wf s) : adb_keyboard.ring_wf (adb_keyboard.buf_pop s).2 := by
  obtain ⟨hh, ht, hlen⟩ := h
  exact ⟨hh, Nat.mod_lt _ (by decide), hlen⟩

theorem ring_wf_pq (s : adb_keyboard.State) (q : List KbdEvent)
    (h : adb_keyboard.ring_wf s) :
    adb_keyboard.ring_wf (adb_keyboard.process_queue s q) := by
  induction q generalizing s with
  | nil => exact h
  | cons e q ih => exact ih _ (ring_wf_push _ _ h)

theorem ring_empty_iff (s : adb_keyboard.State) (h : adb_keyboard.ring_wf s) :
    adb_keyboard.buf_empty s = true ↔ adb_keyboard.ring_count s = 0 := by
  obtain ⟨hh, ht, -⟩ := h
  simp only [adb_keyboard.buf_empty, beq_iff_eq, adb_keyboard.ring_count,
    adb_keyboard.KEY_BUF_SIZE]
  exact (ring_arith_empty _ hh _ ht).symm

theorem ring_list_nil_iff (s : adb_keyboard.State) :
    adb_keyboard.ring_list s = [] ↔ adb_keyboard.ring_count s = 0 := by
  simp [adb_keyboard.ring_list, List.range_eq_nil]

theorem ring_push_full (s : adb_keyboard.State) (v : Nat)
    (h : adb_keyboard.ring_wf s) (hc : adb_keyboard.ring_count s = 31) :
    adb_keyboard.buf_push v s = s := by
  obtain ⟨hh, ht, -⟩ := h
  have hfull : adb_keyboard.buf_full s = true := by
    simp only [adb_keyboard.buf_full, adb_keyboard.KEY_BUF_SIZE, beq_iff_eq]
    exact (ring_arith_full _ hh _ ht).mpr
      (by simpa [adb_keyboard.ring_count, adb_keyboard.KEY_BUF_SIZE] using hc)
  simp [adb_keyboard.buf_push, hfull]

theorem ring_push_ok (s : adb_keyboard.State) (v : Nat)
    (h : adb_keyboard.ring_wf s) (hc : adb_keyboard.ring_count s < 31) :
    adb_keyboard.ring_count (adb_keyboard.buf_push v s) = adb_keyboard.ring_count s + 1 ∧
    adb_keyboard.ring_list (adb_keyboard.buf_push v s) =
      adb_keyboard.ring_list s ++ [v] := by
  obtain ⟨hh, ht, hlen⟩ := h
  have hcnt : (s.key_head + 32 - s.key_tail) % 32 < 31 := by
    simpa [adb_keyboard.ring_count, adb_keyboard.KEY_BUF_SIZE] using hc
  have hfull : adb_keyboard.buf_full s = false := by
    simp only [adb_keyboard.buf_full, adb_keyboard.KEY_BUF_SIZE]
    rw [beq_eq_false_iff_ne]
    intro he
    have := (ring_arith_full _ hh _ ht).mp he
    omega
  have hpush : adb_keyboard.buf_push v s =
      { s with
        key_buf := s.key_buf.set s.key_head v
        key_head := (s.key_head + 1) % adb_keyboard.KEY_BUF_SIZE } := by
    simp [adb_keyboard.buf_push, hfull]
  have hcount : adb_keyboard.ring_count (adb_keyboard.buf_push v s) =
      adb_keyboard.ring_count s + 1 := by
    rw [hpush]
    simp only [adb_keyboard.ring_count, adb_keyboard.KEY_BUF_SIZE]
    exact ring_arith_push _ hh _ ht hcnt
  refine ⟨hcount, ?_⟩
  have hhead : (s.key_tail + adb_keyboard.ring_count s) % 32 = s.key_head := by
    simpa [adb_keyboard.ring_count, adb_keyboard.KEY_BUF_SIZE] using
      ring_arith_head _ hh _ ht
  simp only [adb_keyboard.ring_list, hcount, List.range_succ, List.map_append,
    List.map_cons, List.map_nil]
  congr 1
  · -- surviving entries are untouched by the set at the head slot
    refine List.map_congr_left ?_
    intro i hi
    rw [List.mem_range] at hi
    rw [hpush]
    refine getD_set_ne _ _ _ _ ?_
    intro he
    have hne : (s.key_tail + i) % 32 ≠ (s.key_tail + adb_keyboard.ring_count s) % 32 :=
      ring_index_ne s.key_tail i (adb_keyboard.ring_count s) (by omega) (by omega) hi
    rw [hhead] at hne
    exact hne he.symm
  · -- the freshly written slot holds the pushed value
    rw [hpush]
    simp only [List.cons.injEq, and_true]
    rw [show ((s.key_tail + adb_keyboard.ring_count s) % adb_keyboard.KEY_BUF_SIZE) =
        s.key_head by simpa [adb_keyboard.KEY_BUF_SIZE] using hhead]
    exact getD_set_self _ _ _ (by omega)

theorem ring_pop_cons (s : adb_keyboard.State) (h : adb_keyboard.ring_wf s)
    (a : Nat) (rest : List Nat) (hl : adb_keyboard.ring_list s = a :: rest) :
    (adb_keyboard.buf_pop s).1 = a ∧
    adb_keyboard.ring_list (adb_keyboard.buf_pop s).2 = rest := by
  obtain ⟨hh, ht, hlen⟩ := h
  have hcnt : adb_keyboard.ring_count s ≠ 0 := by
    intro h0
    rw [(ring_list_nil_iff s).mpr h0] at hl
    exact List.noConfusion hl
  obtain ⟨n, hn⟩ : ∃ n, adb_keyboard.ring_count s = n + 1 :=
    ⟨adb_keyboard.ring_count s - 1, by omega⟩
  have hexp : adb_keyboard.ring_list s =
      s.key_buf.getD (s.key_tail % 32) 0 ::
        (List.range n).map
          (fun i => s.key_buf.getD ((s.key_tail + (i + 1)) % 32) 0) := by
    simp only [adb_keyboard.ring_list, hn, List.range_succ_eq_map, List.map_cons,
      List.map_map, adb_keyboard.KEY_BUF_SIZE]
    constructor
  have hcons : a = s.key_buf.getD (s.key_tail % 32) 0 ∧
      rest = (List.range n).map
        (fun i => s.key_buf.getD ((s.key_tail + (i + 1)) % 32) 0) := by
    rw [hexp] at hl
    exact ⟨(List.cons.injEq _ _ _ _ |>.mp hl.symm).1, (List.cons.injEq _ _ _ _ |>.mp hl.symm).2⟩
  have ht32 : s.key_tail < 32 := ht
  have hpop1 : (adb_keyboard.buf_pop s).1 = a := by
    rw [hcons.1, Nat.mod_eq_of_lt ht32]
    rfl
  refine ⟨hpop1, ?_⟩
  have hcount' : adb_keyboard.ring_count (adb_keyboard.buf_pop s).2 = n := by
    simp only [adb_keyboard.buf_pop, adb_keyboard.ring_count, adb_keyboard.KEY_BUF_SIZE]
    have := ring_arith_pop _ hh _ ht
      (by simpa [adb_keyboard.ring_count, adb_keyboard.KEY_BUF_SIZE] using hcnt)
    simp only [adb_keyboard.ring_count, adb_keyboard.KEY_BUF_SIZE] at hn
    omega
  simp only [adb_keyboard.ring_list, hcount']
  rw [hcons.2]
  refine List.map_congr_left ?_
  intro i hi
  show s.key_buf.getD (((adb_keyboard.buf_pop s).2.key_tail + i) % adb_keyboard.KEY_BUF_SIZE) 0 =
    s.key_buf.getD ((s.key_tail + (i + 1)) % 32) 0
  simp only [adb_keyboard.buf_pop, adb_keyboard.KEY_BUF_SIZE]
  rw [Nat.mod_add_mod]
  congr 2
  omega

theorem ring_pq_append (s : adb_keyboard.State) (q : List KbdEvent)
    (h : adb_keyboard.ring_wf s)
    (hcap : adb_keyboard.ring_count s + q.length ≤ 31) :
    adb_keyboard.ring_list (adb_keyboard.process_queue s q) =
      adb_keyboard.ring_list s ++ q.map adb_keyboard.pack_event := by
  induction q generalizing s with
  | nil => simp [adb_keyboard.process_queue]
  | cons e q ih =>
    have hlt : adb_keyboard.ring_count s < 31 := by
      simp only [List.length_cons] at hcap
      omega
    have hpush := ring_push_ok s (adb_keyboard.pack_event e) h hlt
    have hstep : adb_keyboard.process_queue s (e :: q) =
        adb_keyboard.process_queue (adb_keyboard.buf_push (adb_keyboard.pack_event e) s) q := by
      simp [adb_keyboard.process_queue]
    rw [hstep, ih _ (ring_wf_push _ _ h) (by rw [hpush.1]; simp at hcap ⊢; omega),
      hpush.2]
    simp

/-! ### C3: keyboard Talk R0 -/

/-- C3: keyboard Talk R0 first drains the event queue into the ring
(appending one packed byte per event while capacity remains); if the ring
is then empty it returns no data; otherwise it pops one event byte for
the high byte and a second (or the 0xFF sentinel) for the low byte,
returning `high <<< 8 ||| low`; each packed byte is the 7-bit keycode
with bit 7 set iff the event is a release. -/
theorem claim_C3_kbd_talk_r0 (s : adb_keyboard.State) (q : List KbdEvent)
    (hwf : adb_keyboard.ring_wf s) :
    (adb_keyboard.ring_list (adb_keyboard.process_queue s q) = [] →
      adb_keyboard.handle_talk 0 s q = (none, adb_keyboard.process_queue s q, [])) ∧
    (∀ a, adb_keyboard.ring_list (adb_keyboard.process_queue s q) = [a] →
      (adb_keyboard.handle_talk 0 s q).1 = some ((a <<< 8) ||| 0xFF) ∧
      adb_keyboard.ring_list (adb_keyboard.handle_talk 0 s q).2.1 = []) ∧
    (∀ a b rest, adb_keyboard.ring_list (adb_keyboard.process_queue s q) = a :: b :: rest →
      (adb_keyboard.handle_talk 0 s q).1 = some ((a <<< 8) ||| b) ∧
      adb_keyboard.ring_list (adb_keyboard.handle_talk 0 s q).2.1 = rest) ∧
    (adb_keyboard.ring_count s + q.length ≤ 31 →
      adb_keyboard.ring_list (adb_keyboard.process_queue s q) =
        adb_keyboard.ring_list s ++ q.map adb_keyboard.pack_event) ∧
    (∀ e : KbdEvent, e.adb_keycode < 128 →
      adb_keyboard.pack_event e = (if e.released then 128 else 0) + e.adb_keycode) := by
  have hwf1 : adb_keyboard.ring_wf (adb_keyboard.process_queue s q) := ring_wf_pq s q hwf
  refine ⟨?_, ?_, ?_, ring_pq_append s q hwf, ?_⟩
  · intro hnil
    have hemp : adb_keyboard.buf_empty (adb_keyboard.process_queue s q) = true :=
      (ring_empty_iff _ hwf1).mpr ((ring_list_nil_iff _).mp hnil)
    simp [adb_keyboard.handle_talk, hemp]
  · intro a hl
    have hcnt : adb_keyboard.ring_count (adb_keyboard.process_queue s q) = 1 := by
      have := ring_list_length (adb_keyboard.process_queue s q)
      rw [hl] at this
      simpa using this.symm
    have hemp : adb_keyboard.buf_empty (adb_keyboard.process_queue s q) = false := by
      cases hb : adb_keyboard.buf_empty (adb_keyboard.process_queue s q)
      · rfl
      · have := (ring_empty_iff _ hwf1).mp hb
        omega
    have hpop := ring_pop_cons _ hwf1 a [] hl
    have hwf2 := ring_wf_pop _ hwf1
    have hemp2 : adb_keyboard.buf_empty (adb_keyboard.buf_pop (adb_keyboard.process_queue s q)).2 = true :=
      (ring_empty_iff _ hwf2).mpr ((ring_list_nil_iff _).mp hpop.2)
    refine ⟨?_, ?_⟩ <;>
      simp [adb_keyboard.handle_talk, hemp, hemp2, hpop.1, hpop.2]
  · intro a b rest hl
    have hemp : adb_keyboard.buf_empty (adb_keyboard.process_queue s q) = false := by
      cases hb : adb_keyboard.buf_empty (adb_keyboard.process_queue s q)
      · rfl
      · have := (ring_empty_iff _ hwf1).mp hb
        have := ring_list_length (adb_keyboard.process_queue s q)
        rw [hl] at this
        simp only [List.length_cons] at this
        omega
    have hpop := ring_pop_cons _ hwf1 a (b :: rest) hl
    have hwf2 := ring_wf_pop _ hwf1
    have hemp2 : adb_keyboard.buf_empty (adb_keyboard.buf_pop (adb_keyboard.process_queue s q)).2 = false := by
      cases hb : adb_keyboard.buf_empty (adb_keyboard.buf_pop (adb_keyboard.process_queue s q)).2
      · rfl
      · have h0 := (ring_empty_iff _ hwf2).mp hb
        have := ring_list_length (adb_keyboard.buf_pop (adb_keyboard.process_queue s q)).2
        rw [hpop.2] at this
        simp only [List.length_cons] at this
        omega
    have hpop2 := ring_pop_cons _ hwf2 b rest hpop.2
    refine ⟨?_, ?_⟩ <;>
      simp [adb_keyboard.handle_talk, hemp, hemp2, hpop.1, hpop.2, hpop2.1, hpop2.2]
  · intro e he
    have hand : e.adb_keycode &&& 0x7F = e.adb_keycode := by
      have : ∀ k, k < 128 → k &&& 127 = k := by decide
      exact this _ he
    have hor : ∀ k, k < 128 → 128 ||| k = 128 + k := by decide
    cases hrel : e.released <;>
      simp [adb_keyboard.pack_event, hrel, hand, hor _ he, Nat.zero_or]

/-- Witness for C3: the spec's key-tap scenario — a queued press of ADB
keycode 0x00 answers 0x00FF, a queued release answers 0x80FF. -/
theorem claim_C3_witness :
    adb_keyboard.ring_wf adb_keyboard.startup ∧
    (adb_keyboard.handle_talk 0 adb_keyboard.startup [⟨0, false⟩]).1 = some 0x00FF ∧
    (adb_keyboard.handle_talk 0 adb_keyboard.startup [⟨0, true⟩]).1 = some 0x80FF := by
  refine ⟨by decide, ?_, ?_⟩
  · have h := ((claim_C3_kbd_talk_r0 adb_keyboard.startup [⟨0, false⟩] (by decide)).2.1)
      0x00 (by decide)
    exact h.1.trans (by decide)
  · have h := ((claim_C3_kbd_talk_r0 adb_keyboard.startup [⟨0, true⟩] (by decide)).2.1)
      0x80 (by decide)
    exact h.1.trans (by decide)

/-! ### C8: key ring capacity -/

/-- C8 counterexample: after 31 pushes from startup the ring holds 31
events — fewer than 32 — yet the next push is dropped (the state is
unchanged), so "a push onto a ring holding fewer than 32 events
succeeds" is false of the code: the `(head+1) % 32 == tail` full test
sacrifices one slot and caps the ring at 31 stored events. -/
theorem claim_C8_counterexample :
    adb_keyboard.ring_count adb_keyboard.ring31 = 31 ∧
    adb_keyboard.ring_count adb_keyboard.ring31 < 32 ∧
    adb_keyboard.buf_push 99 adb_keyboard.ring31 = adb_keyboard.ring31 := by
  refine ⟨by decide, by decide, by decide⟩

/-- C8 (amended): the key ring stores at most 31 packed events: along any
sequence of pushes and (guarded) pops from startup the count never
exceeds 31, a push onto a ring holding 31 events is dropped leaving the
ring unchanged, and a push onto a ring holding fewer than 31 events
succeeds, appending the value. -/
theorem claim_C8_ring_capacity :
    (∀ ops, adb_keyboard.ring_wf (adb_keyboard.ring_run adb_keyboard.startup ops) ∧
      adb_keyboard.ring_count (adb_keyboard.ring_run adb_keyboard.startup ops) ≤ 31) ∧
    (∀ (s : adb_keyboard.State) (v : Nat), adb_keyboard.ring_wf s →
      (adb_keyboard.ring_count s = 31 → adb_keyboard.buf_push v s = s) ∧
      (adb_keyboard.ring_count s < 31 →
        adb_keyboard.ring_count (adb_keyboard.buf_push v s) = adb_keyboard.ring_count s + 1 ∧
        adb_keyboard.ring_list (adb_keyboard.buf_push v s) =
          adb_keyboard.ring_list s ++ [v])) := by
  constructor
  · intro ops
    have hrun : ∀ (l : List adb_keyboard.RingOp) (s : adb_keyboard.State),
        adb_keyboard.ring_wf s → adb_keyboard.ring_wf (adb_keyboard.ring_run s l) := by
      intro l
      induction l with
      | nil => intro s hs; exact hs
      | cons op l ih =>
        intro s hs
        cases op with
        | push v => exact ih _ (ring_wf_push _ _ hs)
        | pop =>
          show adb_keyboard.ring_wf (adb_keyboard.ring_run
            (if adb_keyboard.buf_empty s = true then s else (adb_keyboard.buf_pop s).2) l)
          split
          · exact ih _ hs
          · exact ih _ (ring_wf_pop _ hs)
    exact ⟨hrun ops adb_keyboard.startup (by decide), ring_count_le _⟩
  · intro s v hs
    exact ⟨ring_push_full s v hs, ring_push_ok s v hs⟩

/-- Witness for C8 (amended): from the empty startup ring a push
succeeds, storing the value. -/
theorem claim_C8_witness :
    adb_keyboard.ring_wf adb_keyboard.startup ∧
    adb_keyboard.ring_count (adb_keyboard.buf_push 7 adb_keyboard.startup) = 1 ∧
    adb_keyboard.ring_list (adb_keyboard.buf_push 7 adb_keyboard.startup) = [7] := by
  have h := (claim_C8_ring_capacity.2 adb_keyboard.startup 7 (by decide)).2 (by decide)
  refine ⟨by decide, h.1.trans (by decide), ?_⟩
  rw [h.2]
  decide

/-! ### C1: device addresses -/

theorem kbd_push_addr (v : Nat) (s : adb_keyboard.State) :
    (adb_keyboard.buf_push v s).address = s.address := by
  unfold adb_keyboard.buf_push
  split <;> rfl

theorem kbd_pq_addr (s : adb_keyboard.State) (q : List KbdEvent) :
    (adb_keyboard.process_queue s q).address = s.address := by
  induction q generalizing s with
  | nil => rfl
  | cons e q ih => exact (ih _).trans (kbd_push_addr _ s)

theorem kbd_talk_addr (reg : Nat) (s : adb_keyboard.State) (q : List KbdEvent) :
    ((adb_keyboard.handle_talk reg s q).2.1).address = s.address := by
  rcases reg with _ | _ | _ | _ | reg
  · simp only [adb_keyboard.handle_talk]
    split
    · exact kbd_pq_addr s q
    · split <;> exact kbd_pq_addr s q
  · rfl
  · rfl
  · rfl
  · rfl

theorem mouse_apply_addr (s : adb_mouse.State) (e : MouseEvent) :
    (adb_mouse.apply_event s e).address = s.address := by
  unfold adb_mouse.apply_event
  dsimp only
  split <;> rfl

theorem mouse_pq_addr (s : adb_mouse.State) (q : List MouseEvent) :
    (adb_mouse.process_queue s q).address = s.address := by
  induction q generalizing s with
  | nil => rfl
  | cons e q ih => exact (ih _).trans (mouse_apply_addr s e)

theorem mouse_talk_addr (reg : Nat) (s : adb_mouse.State) (q : List MouseEvent) :
    ((adb_mouse.handle_talk reg s q).2.1).address = s.address := by
  rcases reg with _ | _ | _ | _ | reg
  · simp only [adb_mouse.handle_talk]
    split
    · exact mouse_pq_addr s q
    · exact mouse_pq_addr s q
  · rfl
  · rfl
  · rfl
  · rfl

theorem kbd_listen_addr (reg d : Nat) (s : adb_keyboard.State) :
    (adb_keyboard.handle_listen reg d s).address = s.address ∨
    (adb_keyboard.handle_listen reg d s).address = (d >>> 8) &&& 0x0F := by
  rcases reg with _ | _ | _ | _ | reg
  · exact Or.inl rfl
  · exact Or.inl rfl
  · exact Or.inl rfl
  · simp only [adb_keyboard.handle_listen]
    split <;> split <;> simp
  · exact Or.inl rfl

theorem mouse_listen_addr (reg d : Nat) (s : adb_mouse.State) :
    (adb_mouse.handle_listen reg d s).address = s.address ∨
    (adb_mouse.handle_listen reg d s).address = (d >>> 8) &&& 0x0F := by
  unfold adb_mouse.handle_listen
  split
  · dsimp only
    split <;> split <;> simp
  · exact Or.inl rfl

/-- Both stored addresses stay within the 4-bit range. -/
def sys_addr_ok (sys : adb_protocol.Sys) : Prop :=
  sys.kbd.address ≤ 0x0F ∧ sys.mouse.address ≤ 0x0F

theorem talk_step_addr_ok (b : Bool) (reg : Nat) (sys : adb_protocol.Sys)
    (h : sys_addr_ok sys) : sys_addr_ok (adb_protocol.talk_step b reg sys) := by
  unfold adb_protocol.talk_step
  cases b
  · exact ⟨h.1, by simpa [mouse_talk_addr] using h.2⟩
  · exact ⟨by simpa [kbd_talk_addr] using h.1, h.2⟩

theorem listen_step_addr_ok (b : Bool) (reg : Nat) (ld : Option Nat)
    (sys : adb_protocol.Sys) (h : sys_addr_ok sys) :
    sys_addr_ok (adb_protocol.listen_step b reg ld sys) := by
  cases ld with
  | none => exact h
  | some d =>
    cases b
    · refine ⟨h.1, ?_⟩
      show (adb_mouse.handle_listen reg d sys.mouse).address ≤ 0x0F
      rcases mouse_listen_addr reg d sys.mouse with h' | h' <;> rw [h']
      · exact h.2
      · exact le_trans Nat.and_le_right (by norm_num)
    · refine ⟨?_, h.2⟩
      show (adb_keyboard.handle_listen reg d sys.kbd).address ≤ 0x0F
      rcases kbd_listen_addr reg d sys.kbd with h' | h' <;> rw [h']
      · exact h.1
      · exact le_trans Nat.and_le_right (by norm_num)

theorem flush_step_addr_ok (bk bm : Bool) (sys : adb_protocol.Sys)
    (h : sys_addr_ok sys) : sys_addr_ok (adb_protocol.flush_step bk bm sys) := by
  unfold adb_protocol.flush_step
  cases bk <;> cases bm <;> exact ⟨h.1, h.2⟩

theorem reset_step_addr_ok (bk bm : Bool) (sys : adb_protocol.Sys)
    (h : sys_addr_ok sys) : sys_addr_ok (adb_protocol.reset_step bk bm sys) := by
  unfold adb_protocol.reset_step
  cases bk <;> cases bm
  · exact ⟨h.1, h.2⟩
  · exact ⟨h.1, show (3 : Nat) ≤ 0x0F by decide⟩
  · exact ⟨show (2 : Nat) ≤ 0x0F by decide, h.2⟩
  · exact ⟨show (2 : Nat) ≤ 0x0F by decide, show (3 : Nat) ≤ 0x0F by decide⟩

theorem handle_command_addr_ok (cmd : adb_protocol.AdbCommand) (ld : Option Nat)
    (sys : adb_protocol.Sys) (h : sys_addr_ok sys) :
    sys_addr_ok (adb_protocol.handle_command cmd ld sys).2 := by
  unfold adb_protocol.handle_command
  dsimp only
  split
  · exact h
  · dsimp only
    split
    · exact talk_step_addr_ok _ _ _ h
    · split
      · exact listen_step_addr_ok _ _ _ _ h
      · split
        · exact flush_step_addr_ok _ _ _ h
        · exact reset_step_addr_ok _ _ _ h

theorem sys_step_addr_ok (sys : adb_protocol.Sys) (inp : adb_protocol.BusInput)
    (h : sys_addr_ok sys) : sys_addr_ok (adb_protocol.sys_step sys inp) := by
  unfold adb_protocol.sys_step
  exact handle_command_addr_ok _ _ _ ⟨h.1, h.2⟩

theorem sys_run_addr_ok (inps : List adb_protocol.BusInput)
    (sys : adb_protocol.Sys) (h : sys_addr_ok sys) :
    sys_addr_ok (adb_protocol.sys_run sys inps) := by
  induction inps generalizing sys with
  | nil => exact h
  | cons inp inps ih => exact ih _ (sys_step_addr_ok sys inp h)

/-- C1 counterexample: from the startup state, one Listen R3 addressed to
the keyboard with payload 0x1000 — whose proposed-address high byte 0x10
is neither 0 nor 0xFE — leaves the stored 4-bit-masked keyboard address
equal to 0, because the 0/0xFE sentinel test runs before the `& 0x0F`
mask.  The claimed "address never becomes 0" invariant is false of the
code. -/
theorem claim_C1_counterexample :
    (0x1000 : Nat) >>> 8 ≠ 0 ∧ (0x1000 : Nat) >>> 8 ≠ 0xFE ∧
    (adb_protocol.sys_run adb_protocol.sysStartup
      [⟨[], [], ⟨2, ADB_CMD_LISTEN, 3⟩, some 0x1000⟩]).kbd.address = 0 :=
  ⟨by decide, by decide, by decide⟩

/-- C1 (amended): in every state reachable from the startup defaults under
any command sequence, the two device addresses stay in the 4-bit range,
so neither ever becomes 0xFE; and a Listen R3 whose proposed-address high
byte is one of the sentinels 0 or 0xFE leaves the stored address
unchanged.  (The address can, however, become 0: a non-sentinel high byte
with a zero low nibble, such as 0x10, masks to 0.) -/
theorem claim_C1_addresses :
    (∀ inps,
      (adb_protocol.sys_run adb_protocol.sysStartup inps).kbd.address ≤ 0x0F ∧
      (adb_protocol.sys_run adb_protocol.sysStartup inps).mouse.address ≤ 0x0F ∧
      (adb_protocol.sys_run adb_protocol.sysStartup inps).kbd.address ≠ 0xFE ∧
      (adb_protocol.sys_run adb_protocol.sysStartup inps).mouse.address ≠ 0xFE) ∧
    (∀ (s : adb_keyboard.State) (d : Nat), (d >>> 8 = 0 ∨ d >>> 8 = 0xFE) →
      (adb_keyboard.handle_listen 3 d s).address = s.address) ∧
    (∀ (s : adb_mouse.State) (d : Nat), (d >>> 8 = 0 ∨ d >>> 8 = 0xFE) →
      (adb_mouse.handle_listen 3 d s).address = s.address) := by
  refine ⟨?_, ?_, ?_⟩
  · intro inps
    obtain ⟨ha, hb⟩ := sys_run_addr_ok inps adb_protocol.sysStartup ⟨by decide, by decide⟩
    exact ⟨ha, hb, by omega, by omega⟩
  · intro s d hd
    have hcond : ¬(d >>> 8 ≠ 0 ∧ d >>> 8 ≠ 0xFE) := by
      rcases hd with h | h <;> simp [h]
    simp only [adb_keyboard.handle_listen]
    rw [if_neg hcond]
    split <;> rfl
  · intro s d hd
    have hcond : ¬(d >>> 8 ≠ 0 ∧ d >>> 8 ≠ 0xFE) := by
      rcases hd with h | h <;> simp [h]
    simp only [adb_mouse.handle_listen, eq_self_iff_true, if_true, if_neg hcond]
    split <;> rfl

/-- Witness for C1 (amended): the startup keyboard address is not 0xFE,
and the spec's S4 sentinel payload 0x00FE leaves the address at its
current value. -/
theorem claim_C1_witness :
    (adb_protocol.sys_run adb_protocol.sysStartup []).kbd.address ≠ 0xFE ∧
    (adb_keyboard.handle_listen 3 0x00FE adb_keyboard.startup).address =
      adb_keyboard.startup.address :=
  ⟨(claim_C1_addresses.1 []).2.2.1,
   claim_C1_addresses.2.1 adb_keyboard.startup 0x00FE (Or.inl (by decide))⟩

/-! ### C7: keyboard report diffing -/

theorem and_pow_ne_iff (n k : Nat) : (n &&& 2 ^ k ≠ 0) ↔ n.testBit k = true := by
  have h2 : (2 : Nat) ^ k ≠ 0 := Nat.pos_iff_ne_zero.mp (Nat.two_pow_pos k)
  rw [Nat.and_two_pow]
  cases h : n.testBit k
  · simp
  · simp [h2]

theorem and_pow_beq (n k : Nat) : ((n &&& 2 ^ k) == 0) = !n.testBit k := by
  have h2 : (2 : Nat) ^ k ≠ 0 := Nat.pos_iff_ne_zero.mp (Nat.two_pow_pos k)
  rw [Nat.and_two_pow]
  cases h : n.testBit k
  · simp
  · simp [h2]

theorem mod_entry (mods prev adb k : Nat) :
    (if (mods ^^^ prev) &&& 2 ^ k ≠ 0 then
       some (⟨adb, (mods &&& 2 ^ k) == 0⟩ : KbdEvent) else none)
    = (if (mods ^^^ prev).testBit k = true then
       some (⟨adb, !mods.testBit k⟩ : KbdEvent) else none) := by
  by_cases h : (mods ^^^ prev).testBit k = true
  · rw [if_pos ((and_pow_ne_iff _ k).mpr h), if_pos h, and_pow_beq]
  · rw [if_neg (fun hc => h ((and_pow_ne_iff _ k).mp hc)), if_neg h]

theorem getD_range_map (l : List Nat) :
    (List.range l.length).map (fun i => l.getD i 0) = l := by
  induction l with
  | nil => rfl
  | cons a l ih =>
    rw [List.length_cons, List.range_succ_eq_map, List.map_cons, List.map_map]
    refine congrArg (a :: ·) ?_
    refine (List.map_congr_left ?_).trans ih
    intro i _
    rfl

theorem filterMap_range_getD (l : List Nat) (f : Nat → Option KbdEvent) :
    (List.range l.length).filterMap (fun i => f (l.getD i 0)) = l.filterMap f := by
  conv_rhs => rw [← getD_range_map l]
  rw [List.filterMap_map]
  rfl

theorem filterMap_range6_getD (l : List Nat) (h : l.length = 6)
    (f : Nat → Option KbdEvent) :
    (List.range 6).filterMap (fun i => f (l.getD i 0)) = l.filterMap f := by
  conv_lhs => rw [← h]
  exact filterMap_range_getD l f

theorem cur_keys_map (report : List Nat) (h : 8 ≤ report.length) :
    ble_hid_host.cur_keys report =
      ((List.range 8).drop 2).map (fun j => report.getD j 0) := by
  rcases report with _ | ⟨b0, report⟩
  · simp at h
  rcases report with _ | ⟨b1, report⟩
  · simp at h
  rcases report with _ | ⟨b2, report⟩
  · simp at h
  rcases report with _ | ⟨b3, report⟩
  · simp at h
  rcases report with _ | ⟨b4, report⟩
  · simp at h
  rcases report with _ | ⟨b5, report⟩
  · simp at h
  rcases report with _ | ⟨b6, report⟩
  · simp at h
  rcases report with _ | ⟨b7, report⟩
  · simp at h
  rfl

theorem still_pressed_iff (report : List Nat) (p : Nat) (h : 8 ≤ report.length) :
    ble_hid_host.still_pressed report p = true ↔ p ∈ ble_hid_host.cur_keys report := by
  rw [cur_keys_map report h]
  simp only [ble_hid_host.still_pressed, List.any_eq_true, Bool.and_eq_true,
    decide_eq_true_eq, beq_iff_eq, List.mem_map]
  constructor
  · rintro ⟨j, hj, -, hp⟩
    exact ⟨j, hj, hp⟩
  · rintro ⟨j, hj, hp⟩
    have hj8 : j < 8 := List.mem_range.mp (List.mem_of_mem_drop hj)
    exact ⟨j, hj, by omega, hp⟩

theorem was_pressed_iff (prev : List Nat) (c : Nat) (h : prev.length = 6) :
    ble_hid_host.was_pressed prev c = true ↔ c ∈ prev := by
  have hm : prev = (List.range 6).map (fun i => prev.getD i 0) := by
    conv_lhs => rw [← getD_range_map prev]
    rw [h]
  have hiff : c ∈ prev ↔ ∃ i ∈ List.range 6, prev.getD i 0 = c := by
    conv_lhs => rw [hm]
    exact List.mem_map
  simp only [ble_hid_host.was_pressed, List.any_eq_true, beq_iff_eq]
  exact hiff.symm

theorem mods_events_eq (mods prev : Nat) :
    (if mods ^^^ prev ≠ 0 then
       (List.range keycode_map.MODIFIER_MAP_SIZE).filterMap
         (fun i =>
           if (mods ^^^ prev) &&& (keycode_map.MODIFIER_MAP.getD i (0, 0)).1 ≠ 0 then
             some (⟨(keycode_map.MODIFIER_MAP.getD i (0, 0)).2,
                    (mods &&& (keycode_map.MODIFIER_MAP.getD i (0, 0)).1) == 0⟩ : KbdEvent)
           else none)
     else [])
    = (List.range 8).filterMap
        (fun b =>
          if (mods ^^^ prev).testBit b then
            some (⟨ble_hid_host.modifier_table b, !mods.testBit b⟩ : KbdEvent)
          else none) := by
  by_cases hd : mods ^^^ prev = 0
  · rw [if_neg (fun hc => hc hd), hd]
    rfl
  · rw [if_pos hd]
    refine List.filterMap_congr ?_
    intro i hi
    have hi8 : i < 8 := List.mem_range.mp hi
    interval_cases i
    · exact mod_entry mods prev 0x36 0
    · exact mod_entry mods prev 0x38 1
    · exact mod_entry mods prev 0x3A 2
    · exact mod_entry mods prev 0x37 3
    · exact mod_entry mods prev 0x7D 4
    · exact mod_entry mods prev 0x7B 5
    · exact mod_entry mods prev 0x7C 6
    · exact mod_entry mods prev 0x37 7

theorem release_entry_eq (tbl : Nat → Nat) (report : List Nat)
    (h8 : 8 ≤ report.length) (p : Nat) :
    (if p == 0 then none
     else if ble_hid_host.still_pressed report p then none
     else if tbl p ≠ keycode_map.ADB_KEY_NONE then
       some (⟨tbl p, true⟩ : KbdEvent)
     else none)
    = (if p ≠ 0 ∧ p ∉ ble_hid_host.cur_keys report ∧ tbl p ≠ keycode_map.ADB_KEY_NONE then
        some (⟨tbl p, true⟩ : KbdEvent) else none) := by
  by_cases hp : p = 0
  · simp [hp]
  · by_cases hs : p ∈ ble_hid_host.cur_keys report
    · have hsp : ble_hid_host.still_pressed report p = true :=
        (still_pressed_iff report p h8).mpr hs
      simp [hp, hs, hsp]
    · have hsp : ble_hid_host.still_pressed report p = false := by
        cases hb : ble_hid_host.still_pressed report p
        · rfl
        · exact absurd ((still_pressed_iff report p h8).mp hb) hs
      by_cases hu : tbl p = keycode_map.ADB_KEY_NONE <;> simp [hp, hs, hsp, hu]

theorem press_entry_eq (tbl : Nat → Nat) (prev : List Nat)
    (h6 : prev.length = 6) (c : Nat) :
    (if c == 0 then none
     else if ble_hid_host.was_pressed prev c then none
     else if tbl c ≠ keycode_map.ADB_KEY_NONE then
       some (⟨tbl c, false⟩ : KbdEvent)
     else none)
    = (if c ≠ 0 ∧ c ∉ prev ∧ tbl c ≠ keycode_map.ADB_KEY_NONE then
        some (⟨tbl c, false⟩ : KbdEvent) else none) := by
  by_cases hc : c = 0
  · simp [hc]
  · by_cases hw : c ∈ prev
    · have hwp : ble_hid_host.was_pressed prev c = true :=
        (was_pressed_iff prev c h6).mpr hw
      simp [hc, hw, hwp]
    · have hwp : ble_hid_host.was_pressed prev c = false := by
        cases hb : ble_hid_host.was_pressed prev c
        · rfl
        · exact absurd ((was_pressed_iff prev c h6).mp hb) hw
      by_cases hu : tbl c = keycode_map.ADB_KEY_NONE <;> simp [hc, hw, hwp, hu]

theorem releases_eq (tbl : Nat → Nat) (prev : List Nat) (report : List Nat)
    (h6 : prev.length = 6) (h8 : 8 ≤ report.length) :
    (List.range 6).filterMap
      (fun i =>
        if prev.getD i 0 == 0 then none
        else if ble_hid_host.still_pressed report (prev.getD i 0) then none
        else if tbl (prev.getD i 0) ≠ keycode_map.ADB_KEY_NONE then
          some (⟨tbl (prev.getD i 0), true⟩ : KbdEvent)
        else none)
    = prev.filterMap
        (fun p =>
          if p ≠ 0 ∧ p ∉ ble_hid_host.cur_keys report ∧ tbl p ≠ keycode_map.ADB_KEY_NONE then
            some (⟨tbl p, true⟩ : KbdEvent)
          else none) :=
  calc
    (List.range 6).filterMap
        (fun i =>
          if prev.getD i 0 == 0 then none
          else if ble_hid_host.still_pressed report (prev.getD i 0) then none
          else if tbl (prev.getD i 0) ≠ keycode_map.ADB_KEY_NONE then
            some (⟨tbl (prev.getD i 0), true⟩ : KbdEvent)
          else none)
      = prev.filterMap
          (fun p =>
            if p == 0 then none
            else if ble_hid_host.still_pressed report p then none
            else if tbl p ≠ keycode_map.ADB_KEY_NONE then
              some (⟨tbl p, true⟩ : KbdEvent)
            else none) :=
        filterMap_range6_getD prev h6
          (fun p =>
            if p == 0 then none
            else if ble_hid_host.still_pressed report p then none
            else if tbl p ≠ keycode_map.ADB_KEY_NONE then
              some (⟨tbl p, true⟩ : KbdEvent)
            else none)
    _ = prev.filterMap
          (fun p =>
            if p ≠ 0 ∧ p ∉ ble_hid_host.cur_keys report ∧ tbl p ≠ keycode_map.ADB_KEY_NONE then
              some (⟨tbl p, true⟩ : KbdEvent)
            else none) :=
        List.filterMap_congr (fun p _ => release_entry_eq tbl report h8 p)

theorem presses_eq (tbl : Nat → Nat) (prev : List Nat) (report : List Nat)
    (h6 : prev.length = 6) (h8 : 8 ≤ report.length) :
    ((List.range 8).drop 2).filterMap
      (fun j =>
        if decide (j < report.length) then
          if report.getD j 0 == 0 then none
          else if ble_hid_host.was_pressed prev (report.getD j 0) then none
          else if tbl (report.getD j 0) ≠ keycode_map.ADB_KEY_NONE then
            some (⟨tbl (report.getD j 0), false⟩ : KbdEvent)
          else none
        else none)
    = (ble_hid_host.cur_keys report).filterMap
        (fun c =>
          if c ≠ 0 ∧ c ∉ prev ∧ tbl c ≠ keycode_map.ADB_KEY_NONE then
            some (⟨tbl c, false⟩ : KbdEvent)
          else none) := by
  have h1 : ((List.range 8).drop 2).filterMap
      (fun j =>
        if decide (j < report.length) then
          if report.getD j 0 == 0 then none
          else if ble_hid_host.was_pressed prev (report.getD j 0) then none
          else if tbl (report.getD j 0) ≠ keycode_map.ADB_KEY_NONE then
            some (⟨tbl (report.getD j 0), false⟩ : KbdEvent)
          else none
        else none)
      = ((List.range 8).drop 2).filterMap
        (fun j =>
          if report.getD j 0 ≠ 0 ∧ report.getD j 0 ∉ prev ∧
              tbl (report.getD j 0) ≠ keycode_map.ADB_KEY_NONE then
            some (⟨tbl (report.getD j 0), false⟩ : KbdEvent)
          else none) := by
    refine List.filterMap_congr ?_
    intro j hj
    have hj8 : j < 8 := List.mem_range.mp (List.mem_of_mem_drop hj)
    rw [if_pos (by simpa using lt_of_lt_of_le hj8 h8)]
    exact press_entry_eq tbl prev h6 (report.getD j 0)
  rw [h1, cur_keys_map report h8, List.filterMap_map]
  rfl

/-- C7: for reports of at least 8 bytes, `on_keyboard_report` emits
exactly the specification diff — one modifier event per bit set in
`modifiers XOR prev_modifiers` with the fixed 8-entry table keycode and
`released = !(modifiers & bit)`, one release per non-zero previous key
absent from bytes 2..7, one press per non-zero current key absent from
`prev_keys`, unmapped codes (0xFF) yielding no event — and then stores
the current modifiers and keys; reports shorter than 8 bytes produce no
events and leave the parser state untouched. -/
theorem claim_C7_keyboard_report (usb_to_adb : Nat → Nat)
    (st : ble_hid_host.KbdHostState) (report : List Nat)
    (h6 : st.prev_keys.length = 6) :
    ble_hid_host.on_keyboard_report usb_to_adb st report =
      ble_hid_host.keyboard_report_spec usb_to_adb st report ∧
    (report.length < 8 →
      ble_hid_host.on_keyboard_report usb_to_adb st report = ([], st)) := by
  constructor
  · by_cases hlen : report.length < 8
    · unfold ble_hid_host.on_keyboard_report ble_hid_host.keyboard_report_spec
      rw [if_pos hlen, if_pos hlen]
    · have h8 : 8 ≤ report.length := by omega
      unfold ble_hid_host.on_keyboard_report ble_hid_host.keyboard_report_spec
      rw [if_neg hlen, if_neg hlen]
      dsimp only
      have hA := mods_events_eq (report.getD 0 0) st.prev_modifiers
      have hB := releases_eq usb_to_adb st.prev_keys report h6 h8
      have hC := presses_eq usb_to_adb st.prev_keys report h6 h8
      have hmod : (if report.getD 0 0 ^^^ st.prev_modifiers ≠ 0 then report.getD 0 0
          else st.prev_modifiers) = report.getD 0 0 := by
        by_cases hd : report.getD 0 0 ^^^ st.prev_modifiers = 0
        · rw [if_neg (fun hc => hc hd)]
          exact (Nat.xor_eq_zero.mp hd).symm
        · rw [if_pos hd]
      have hkeys : (List.range 6).map
          (fun i => if i + 2 < report.length then report.getD (i + 2) 0 else 0) =
          ble_hid_host.cur_keys report := by
        have hstep : (List.range 6).map
            (fun i => if i + 2 < report.length then report.getD (i + 2) 0 else 0) =
            (List.range 6).map (fun i => report.getD (i + 2) 0) :=
          List.map_congr_left (fun i hi => by
            rw [if_pos (by have := List.mem_range.mp hi; omega)])
        rw [hstep, cur_keys_map report h8,
          show (List.range 8).drop 2 = (List.range 6).map (fun i => i + 2) by decide,
          List.map_map]
        rfl
      refine Prod.ext ?_ ?_
      · show _ ++ _ ++ _ = _ ++ _ ++ _
        exact congrArg₂ (· ++ ·) (congrArg₂ (· ++ ·) hA hB) hC
      · show ble_hid_host.KbdHostState.mk _ _ = ble_hid_host.KbdHostState.mk _ _
        exact congrArg₂ ble_hid_host.KbdHostState.mk hmod hkeys
  · intro h
    unfold ble_hid_host.on_keyboard_report
    rw [if_pos h]

/-- Witness for C7: the spec's Shift-A scenario, first report
`[0x02,0,0x04,0,0,0,0,0]` against an empty previous state with a table
mapping USB 0x04 to ADB 0x00: the source parser agrees with the spec
diff, and the events are shift-down then A-down; a 3-byte report
produces no events. -/
theorem claim_C7_witness :
    (ble_hid_host.KbdHostState.mk 0 [0, 0, 0, 0, 0, 0]).prev_keys.length = 6 ∧
    ble_hid_host.on_keyboard_report (fun c => if c = 4 then 0 else 0xFF)
        ⟨0, [0, 0, 0, 0, 0, 0]⟩ [2, 0, 4, 0, 0, 0, 0, 0] =
      ble_hid_host.keyboard_report_spec (fun c => if c = 4 then 0 else 0xFF)
        ⟨0, [0, 0, 0, 0, 0, 0]⟩ [2, 0, 4, 0, 0, 0, 0, 0] ∧
    (ble_hid_host.on_keyboard_report (fun c => if c = 4 then 0 else 0xFF)
        ⟨0, [0, 0, 0, 0, 0, 0]⟩ [2, 0, 4, 0, 0, 0, 0, 0]).1 =
      [⟨0x38, false⟩, ⟨0x00, false⟩] ∧
    ble_hid_host.on_keyboard_report (fun c => if c = 4 then 0 else 0xFF)
        ⟨0, [0, 0, 0, 0, 0, 0]⟩ [0, 0, 0] = ([], ⟨0, [0, 0, 0, 0, 0, 0]⟩) :=
  ⟨by decide,
   (claim_C7_keyboard_report (fun c => if c = 4 then 0 else 0xFF)
     ⟨0, [0, 0, 0, 0, 0, 0]⟩ [2, 0, 4, 0, 0, 0, 0, 0] (by decide)).1,
   by decide,
   (claim_C7_keyboard_report (fun c => if c = 4 then 0 else 0xFF)
     ⟨0, [0, 0, 0, 0, 0, 0]⟩ [0, 0, 0] (by decide)).2 (by decide)⟩

end BleAdb
